import Mathlib

/-
Verification of the fancyTide tide-clock firmware core.

This file gives a shallow embedding of the schedule-cache and
dial-interpolation core of the firmware, translated from the source
files of the repository, chiefly `newFinalThree.ino` (the prediction
extraction loop of `getNOAATideData`, the persistence of the schedule,
the refresh decision of `setup`, the servo interpolation of
`updateServoPosition`, and the sleep selection of `deepSleep`), plus
the variant interpolator of `finalTideThree.ino`.

Modelling conventions:
* `time_t` values and day numbers are embedded as `Int` (they are
  signed integer seconds in the source); C/C++ `long` division in
  Arduino's `map` truncates toward zero, embedded as `Int.tdiv`.
* Heights are `float` in the source but are only ever copied, never
  computed with, so they are embedded as `Int` stand-ins.
* The `float progress` arithmetic of `finalTideThree.ino` is embedded
  with exact rationals; the `(int)` cast of a non-negative value is a
  floor.
* A raw prediction record carries the result of `strptime`/`mktime`
  as `Option Int`: `none` models a record whose time string fails to
  parse (the loop skips it), mirroring the `continue` paths.
* The external collaborators (HTTP, JSON, NVS) are modelled by an
  explicit `FetchOutcome` input and an explicit `Store` state that is
  threaded through the cycle.
-/

namespace FancyTide

/-- One decoded prediction record as consumed by the `for (JsonObject
prediction : predictions)` loop: `t` is the `strptime`+`mktime` parse of
the `"t"` field (`none` = parse failure, skipped), `ty` is the raw
`"type"` code string (`"H"`/`"L"`), `v` is the `"v"` height value. -/
structure Pred where
  t : Option Int
  ty : String
  v : Int
deriving DecidableEq, Repr

/-- The six in-memory tide globals of `newFinalThree.ino` that the
extraction loop fills in (field names follow the source globals). -/
structure Anchors where
  nextHighTideTime : Int
  nextHighTideHeight : Int
  nextLowTideTime : Int
  nextLowTideHeight : Int
  lastHighTideTime : Int
  lastLowTideTime : Int
deriving DecidableEq, Repr

/-- The body of the prediction loop of `getNOAATideData`
(`newFinalThree.ino` lines 233-262) for one record: past records of each
kind keep the largest timestamp seen; future records of each kind are
taken only while the corresponding `next*` slot still holds the 0
sentinel (first one encountered wins). -/
def stepPred (currentTime : Int) (a : Anchors) (p : Pred) : Anchors :=
  match p.t with
  | none => a
  | some tideUnixTime =>
    if tideUnixTime < currentTime then
      if p.ty = "H" then
        if tideUnixTime > a.lastHighTideTime then
          { a with lastHighTideTime := tideUnixTime }
        else a
      else if p.ty = "L" then
        if tideUnixTime > a.lastLowTideTime then
          { a with lastLowTideTime := tideUnixTime }
        else a
      else a
    else
      if p.ty = "H" ∧ a.nextHighTideTime = 0 then
        { a with nextHighTideTime := tideUnixTime, nextHighTideHeight := p.v }
      else if p.ty = "L" ∧ a.nextLowTideTime = 0 then
        { a with nextLowTideTime := tideUnixTime, nextLowTideHeight := p.v }
      else a

/-- The full extraction loop of `getNOAATideData`: all six globals are
reset to 0 and the records are folded in input order. -/
def extractAnchors (currentTime : Int) (preds : List Pred) : Anchors :=
  preds.foldl (stepPred currentTime) ⟨0, 0, 0, 0, 0, 0⟩

/-- The persisted NVS schedule of `newFinalThree.ino`: the six anchor
fields plus the `last_dl_day` cache-generation marker. -/
structure Store where
  nextHighTideTime : Int
  nextHighTideHeight : Int
  nextLowTideTime : Int
  nextLowTideHeight : Int
  lastHighTideTime : Int
  lastLowTideTime : Int
  lastDownloadDay : Int
deriving DecidableEq, Repr

/-- The six `preferences.put...` calls at the end of the successful
decode path of `getNOAATideData` (lines 264-271): every anchor field is
overwritten; `lastDownloadDay` is not touched there. -/
def writeAnchors (a : Anchors) (st : Store) : Store :=
  { nextHighTideTime := a.nextHighTideTime
    nextHighTideHeight := a.nextHighTideHeight
    nextLowTideTime := a.nextLowTideTime
    nextLowTideHeight := a.nextLowTideHeight
    lastHighTideTime := a.lastHighTideTime
    lastLowTideTime := a.lastLowTideTime
    lastDownloadDay := st.lastDownloadDay }

/-- Outcome of the HTTP + JSON collaborators for one fetch:
`httpFail` is a non-OK `http.GET()`; `payload none` is a
`deserializeJson` error; `payload (some l)` is a decoded predictions
array `l` (the source also rejects `l = []`). -/
inductive FetchOutcome where
  | httpFail
  | payload (decoded : Option (List Pred))
deriving DecidableEq, Repr

/-- `getNOAATideData` of `newFinalThree.ino` (lines 168-281), with the
network and JSON collaborators replaced by the `FetchOutcome` input:
returns the source's `bool` result and the store after the call.  On the
decoded non-empty path the six anchors are persisted unconditionally and
the result is `nextHighTideTime > 0 || nextLowTideTime > 0`. -/
def getNOAATideData (stationId : String) (now : Int) (f : FetchOutcome)
    (st : Store) : Bool × Store :=
  if stationId.length = 0 then (false, st)
  else
    match f with
    | .httpFail => (false, st)
    | .payload none => (false, st)
    | .payload (some preds) =>
      if preds.isEmpty then (false, st)
      else
        let a := extractAnchors now preds
        (decide (0 < a.nextHighTideTime ∨ 0 < a.nextLowTideTime),
         writeAnchors a st)

/-- The refresh attempt of `setup` (`newFinalThree.ino` lines 489-497):
run `getNOAATideData`; only when it reports success is
`saveLastDownloadDay(currentDay)` executed. -/
def refreshAttempt (stationId : String) (currentDay now : Int)
    (f : FetchOutcome) (st : Store) : Bool × Store :=
  let r := getNOAATideData stationId now f st
  (r.1, if r.1 then { r.2 with lastDownloadDay := currentDay } else r.2)

/-- The `nextFutureTideTime` selection of `setup`
(`newFinalThree.ino` lines 474-479): the earliest stored future tide,
with 0 as the "none" sentinel. -/
def nextFutureSel (nh nl : Int) : Int :=
  if 0 < nh ∧ (nl = 0 ∨ nh < nl) then nh
  else if 0 < nl then nl
  else 0

/-- The `needsNewData` decision of `setup` (`newFinalThree.ino` lines
462-487): new calendar day, unset station id, stale earliest future
tide, or no future tide stored at all. -/
def needsNewData (stationId : String) (currentDay lastDlDay nh nl now : Int) :
    Bool :=
  decide (currentDay ≠ lastDlDay) ||
  decide (stationId.length = 0) ||
  (decide (0 < nextFutureSel nh nl ∧ nextFutureSel nh nl < now) ||
   decide (nextFutureSel nh nl = 0))

/-- The smaller of the anchors that are present (0 = absent), used to
phrase the spec's "earliest of the present `next*` anchors". -/
def minPresent (nh nl : Int) : Int :=
  if nh = 0 then nl else if nl = 0 then nh else min nh nl

/-- Modelled from the spec: the RefreshPolicy decision rule exactly as
section 4.2 words it — station unset, day boundary, both anchors
absent, or earliest present anchor already `<= now`.  Used only to be
compared with the code's `needsNewData`. -/
def refreshRuleSpec (stationId : String)
    (currentDay lastDlDay nh nl now : Int) : Prop :=
  stationId.length = 0 ∨ currentDay ≠ lastDlDay ∨ (nh = 0 ∧ nl = 0) ∨
  ((nh ≠ 0 ∨ nl ≠ 0) ∧ minPresent nh nl ≤ now)

/-- The refresh rule the code actually implements: as
`refreshRuleSpec` but with the staleness comparison strict
(`minPresent < now` instead of `≤ now`). -/
def refreshRuleStrict (stationId : String)
    (currentDay lastDlDay nh nl now : Int) : Prop :=
  stationId.length = 0 ∨ currentDay ≠ lastDlDay ∨ (nh = 0 ∧ nl = 0) ∨
  ((nh ≠ 0 ∨ nl ≠ 0) ∧ minPresent nh nl < now)

/-- Arduino's `constrain(amt, low, high)` macro. -/
def constrain (x lo hi : Int) : Int :=
  if x < lo then lo else if x > hi then hi else x

/-- Arduino's `map(x, in_min, in_max, out_min, out_max)` on `long`:
C++ integer division truncates toward zero, hence `Int.tdiv`. -/
def mapA (x inMin inMax outMin outMax : Int) : Int :=
  ((x - inMin) * (outMax - outMin)).tdiv (inMax - inMin) + outMin

/-- The `prevTideTime`/`prevTideType` selection of
`updateServoPosition` (`newFinalThree.ino` lines 288-297). -/
def prevSel (a : Anchors) : Int × String :=
  if a.lastHighTideTime > a.lastLowTideTime then (a.lastHighTideTime, "H")
  else if a.lastLowTideTime > 0 then (a.lastLowTideTime, "L")
  else (0, "N/A")

/-- The `nextTideTime`/`nextTideType` selection of
`updateServoPosition` (`newFinalThree.ino` lines 299-308). -/
def nextSel (a : Anchors) : Int × String :=
  if 0 < a.nextHighTideTime ∧
      (a.nextLowTideTime = 0 ∨ a.nextHighTideTime < a.nextLowTideTime) then
    (a.nextHighTideTime, "H")
  else if 0 < a.nextLowTideTime then (a.nextLowTideTime, "L")
  else (0, "N/A")

/-- `updateServoPosition` of `newFinalThree.ino` (lines 284-354):
`none` means the function returned without powering or writing the
servo; `some angle` is the angle written.  Segment mapping uses
Arduino `map` then a per-segment `constrain`, with a default of
`SERVO_LOW_TIDE_ANGLE = 90` for any other kind combination, and a
final `constrain` to `[0, 180]`. -/
def updateServoPosition (a : Anchors) (now : Int) : Option Int :=
  let prev := prevSel a
  let next := nextSel a
  if prev.1 = 0 ∨ next.1 = 0 then none
  else
    let totalCycleSeconds := next.1 - prev.1
    let secondsIntoCycle := now - prev.1
    let newAngle :=
      if prev.2 = "H" ∧ next.2 = "L" then
        constrain (mapA secondsIntoCycle 0 totalCycleSeconds 0 90) 0 90
      else if prev.2 = "L" ∧ next.2 = "H" then
        constrain (mapA secondsIntoCycle 0 totalCycleSeconds 90 180) 90 180
      else 90
    some (constrain newAngle 0 180)

/-- The in-memory anchors corresponding to a loaded store
(`loadConfiguration`). -/
def anchorsOf (st : Store) : Anchors :=
  ⟨st.nextHighTideTime, st.nextHighTideHeight, st.nextLowTideTime,
   st.nextLowTideHeight, st.lastHighTideTime, st.lastLowTideTime⟩

/-- Observable outcome of one wake cycle: the store it leaves behind,
whether a fetch was attempted, the servo command (if any), and the
requested sleep interval in seconds. -/
structure CycleResult where
  store : Store
  fetchAttempted : Bool
  servoCmd : Option Int
  sleepSeconds : Int
deriving DecidableEq, Repr

/-- One wake cycle of `setup` + `deepSleep` in `newFinalThree.ino`
after configuration load: when NTP succeeded and `needsNewData` holds,
the refresh attempt runs; `updateServoPosition()` is then called
unconditionally (on NTP failure the source logs "Using last known NVS
data for servo position" and still calls it); `deepSleep` requests
600 s when the epoch reading is 0 and `TIME_TO_SLEEP = 1800` s
otherwise.  `now` is the value `ntpClient.getEpochTime()` returns
during the cycle. -/
def wakeCycle (ntpSuccess : Bool) (stationId : String)
    (currentDay now : Int) (f : FetchOutcome) (st : Store) : CycleResult :=
  let phase :=
    if ntpSuccess then
      if needsNewData stationId currentDay st.lastDownloadDay
          st.nextHighTideTime st.nextLowTideTime now then
        (true, (refreshAttempt stationId currentDay now f st).2)
      else (false, st)
    else (false, st)
  { store := phase.2
    fetchAttempted := phase.1
    servoCmd := updateServoPosition (anchorsOf phase.2) now
    sleepSeconds := if now = 0 then 600 else 1800 }

/-- Modelled from the spec (glossary "Bracket" and section 4.3): the
schedule holds a past anchor and a future anchor of opposite kinds
with `last.timestamp < now < next.timestamp` (0 = absent anchor).
Used only to state what the claims call a valid bracket. -/
def specHasOppositeBracket (a : Anchors) (now : Int) : Prop :=
  (a.lastHighTideTime ≠ 0 ∧ a.nextLowTideTime ≠ 0 ∧
    a.lastHighTideTime < now ∧ now < a.nextLowTideTime) ∨
  (a.lastLowTideTime ≠ 0 ∧ a.nextHighTideTime ≠ 0 ∧
    a.lastLowTideTime < now ∧ now < a.nextHighTideTime)

/-- Chronological order between two records: whenever both parse, the
first one's timestamp is not after the second one's (the order the
feed delivers). -/
def predChron (p q : Pred) : Prop :=
  match p.t, q.t with
  | some tp, some tq => tp ≤ tq
  | _, _ => True

instance (p q : Pred) : Decidable (predChron p q) :=
  match hp : p.t, hq : q.t with
  | some _, some _ => by unfold predChron; rw [hp, hq]; exact inferInstance
  | some _, none => by unfold predChron; rw [hp, hq]; exact .isTrue trivial
  | none, some _ => by unfold predChron; rw [hp, hq]; exact .isTrue trivial
  | none, none => by unfold predChron; rw [hp, hq]; exact .isTrue trivial

instance (a : Anchors) (now : Int) : Decidable (specHasOppositeBracket a now) := by
  unfold specHasOppositeBracket; infer_instance

instance (stationId : String) (currentDay lastDlDay nh nl now : Int) :
    Decidable (refreshRuleSpec stationId currentDay lastDlDay nh nl now) := by
  unfold refreshRuleSpec; infer_instance

instance (stationId : String) (currentDay lastDlDay nh nl now : Int) :
    Decidable (refreshRuleStrict stationId currentDay lastDlDay nh nl now) := by
  unfold refreshRuleStrict; infer_instance

end FancyTide

namespace FT3

/-- Control shape of `updateServoPosition` in `finalTideThree.ino`:
`abort` = an early `return` without a servo write; `defaultWrite` =
scenario 1 (both stored tides in the future) which writes a fixed
angle without interpolating; `bracket` = scenarios 2/3 which pick a
previous and a next tide for interpolation. -/
inductive Step where
  | abort
  | defaultWrite (angle : Int)
  | bracket (prevT nextT : Int) (prevTy nextTy : String)
deriving DecidableEq, Repr

/-- The scenario selection of `updateServoPosition` in
`finalTideThree.ino` (lines 302-383): this variant stores only the two
`next*` times.  Scenario 1 (both in the future) writes a default
angle; scenario 2 is falling tide H→L; scenario 3 is rising tide L→H;
scenario 4 (all data in the past) aborts, as does the no-data check. -/
def ftSelect (nh nl now : Int) : Step :=
  if nh = 0 ∧ nl = 0 then .abort
  else if now < nh ∧ now < nl then
    if nh < nl then .defaultWrite 0 else .defaultWrite 90
  else if nh ≤ now ∧ (nl = 0 ∨ now < nl) then .bracket nh nl "H" "L"
  else if nl ≤ now ∧ (nh = 0 ∨ now < nh) then .bracket nl nh "L" "H"
  else .abort

/-- The interpolation of `finalTideThree.ino` (lines 402-434): float
`progress` is modelled with exact rationals, clamped to `[0, 1]`; the
`(int)` cast of the non-negative product is a floor; a non-positive
`cycleDuration` falls back to the default angle 90 (dead code behind
the guard); the result is clamped to `[0, 180]`. -/
def ftInterpolate (prevT nextT : Int) (prevTy nextTy : String)
    (now : Int) : Int :=
  let cycleDuration := nextT - prevT
  let timeIntoCycle := now - prevT
  if cycleDuration ≤ 0 then 90
  else
    let progress : ℚ := (timeIntoCycle : ℚ) / (cycleDuration : ℚ)
    let progress := if progress < 0 then 0 else if 1 < progress then 1 else progress
    let newAngle :=
      if prevTy = "H" ∧ nextTy = "L" then (0 : Int) + ⌊progress * (90 - 0)⌋
      else if prevTy = "L" ∧ nextTy = "H" then 90 + ⌊progress * (180 - 90)⌋
      else 90
    FancyTide.constrain newAngle 0 180

/-- `updateServoPosition` of `finalTideThree.ino` (lines 294-446):
after scenario selection, the guard of line 386 (`prevTideTime == 0 ||
actualNextTideTime == 0 || actualNextTideTime <= prevTideTime`) aborts
without any servo write; only then is the interpolation reached. -/
def ftUpdateServoPosition (nh nl now : Int) : Option Int :=
  match ftSelect nh nl now with
  | .abort => none
  | .defaultWrite a => some a
  | .bracket prevT nextT prevTy nextTy =>
    if prevT = 0 ∨ nextT = 0 ∨ nextT ≤ prevT then none
    else some (ftInterpolate prevT nextT prevTy nextTy now)

end FT3

namespace FancyTide

theorem constrain_lb {x lo hi : Int} (h : lo ≤ hi) : lo ≤ constrain x lo hi := by
  unfold constrain; split_ifs <;> omega

theorem constrain_ub {x lo hi : Int} (h : lo ≤ hi) : constrain x lo hi ≤ hi := by
  unfold constrain; split_ifs <;> omega

theorem constrain_eq_of_mem {x lo hi : Int} (h1 : lo ≤ x) (h2 : x ≤ hi) :
    constrain x lo hi = x := by
  unfold constrain; split_ifs <;> omega

theorem constrain_mono {x y lo hi : Int} (hlohi : lo ≤ hi) (h : x ≤ y) :
    constrain x lo hi ≤ constrain y lo hi := by
  unfold constrain; split_ifs <;> omega

theorem nextSel_low_pos {a : Anchors} {t : Int} (h : nextSel a = (t, "L")) :
    0 < t := by
  unfold nextSel at h
  split_ifs at h <;> simp_all

theorem nextSel_high_pos {a : Anchors} {t : Int} (h : nextSel a = (t, "H")) :
    0 < t := by
  unfold nextSel at h
  split_ifs at h with h1 <;> simp_all

theorem updateServo_HL_eq {a : Anchors} {t0 t1 : Int}
    (hp : prevSel a = (t0, "H")) (hn : nextSel a = (t1, "L"))
    (h0 : t0 ≠ 0) (now : Int) :
    updateServoPosition a now =
      some (constrain (((now - t0) * 90).tdiv (t1 - t0)) 0 90) := by
  have h1 : 0 < t1 := nextSel_low_pos hn
  have hub : constrain (((now - t0) * 90).tdiv (t1 - t0)) 0 90 ≤ 90 :=
    constrain_ub (by omega)
  have hlb : 0 ≤ constrain (((now - t0) * 90).tdiv (t1 - t0)) 0 90 :=
    constrain_lb (by omega)
  simp only [updateServoPosition, hp, hn, mapA]
  rw [if_neg (by simp; omega)]
  norm_num
  rw [constrain_eq_of_mem hlb (by omega)]

theorem updateServo_LH_eq {a : Anchors} {t0 t1 : Int}
    (hp : prevSel a = (t0, "L")) (hn : nextSel a = (t1, "H"))
    (h0 : t0 ≠ 0) (now : Int) :
    updateServoPosition a now =
      some (constrain (((now - t0) * 90).tdiv (t1 - t0) + 90) 90 180) := by
  have h1 : 0 < t1 := nextSel_high_pos hn
  have hub : constrain (((now - t0) * 90).tdiv (t1 - t0) + 90) 90 180 ≤ 180 :=
    constrain_ub (by omega)
  have hlb : 90 ≤ constrain (((now - t0) * 90).tdiv (t1 - t0) + 90) 90 180 :=
    constrain_lb (by omega)
  simp only [updateServoPosition, hp, hn, mapA]
  rw [if_neg (by simp; omega)]
  norm_num
  rw [if_neg (by decide)]
  rw [constrain_eq_of_mem (by omega) (by omega)]

theorem tdiv_mul_ninety_mono {x y d : Int} (hd : 0 < d) (hx : 0 ≤ x)
    (hxy : x ≤ y) : (x * 90).tdiv d ≤ (y * 90).tdiv d := by
  rw [Int.tdiv_eq_ediv (by nlinarith) (le_of_lt hd),
      Int.tdiv_eq_ediv (by nlinarith) (le_of_lt hd)]
  exact Int.ediv_le_ediv hd (by nlinarith)

/-- Claim C1: for a schedule whose selected bracket is the past High at
`t0` and the next Low at `t1` with `t1 > t0`, `updateServoPosition`
writes angle 0 at `now = t0`, angle 90 at `now = t1`, and the written
angle is monotonically non-decreasing as `now` increases over
`[t0, t1]`. -/
theorem dial_HL_endpoints_and_monotone (a : Anchors) (t0 t1 : Int)
    (hp : prevSel a = (t0, "H")) (hn : nextSel a = (t1, "L"))
    (h0 : t0 ≠ 0) (h01 : t0 < t1) :
    updateServoPosition a t0 = some 0 ∧
    updateServoPosition a t1 = some 90 ∧
    ∀ n1 n2 x1 x2, t0 ≤ n1 → n1 ≤ n2 → n2 ≤ t1 →
      updateServoPosition a n1 = some x1 →
      updateServoPosition a n2 = some x2 → x1 ≤ x2 := by
  have hd : 0 < t1 - t0 := by omega
  refine ⟨?_, ?_, ?_⟩
  · rw [updateServo_HL_eq hp hn h0 t0]
    norm_num [Int.zero_tdiv]
    exact constrain_eq_of_mem le_rfl (by omega)
  · rw [updateServo_HL_eq hp hn h0 t1]
    rw [Int.mul_tdiv_cancel_left 90 (by omega)]
    rw [constrain_eq_of_mem (by omega) le_rfl]
  · intro n1 n2 x1 x2 hl hm hr e1 e2
    rw [updateServo_HL_eq hp hn h0 n1] at e1
    rw [updateServo_HL_eq hp hn h0 n2] at e2
    have hx1 := Option.some.inj e1
    have hx2 := Option.some.inj e2
    rw [← hx1, ← hx2]
    exact constrain_mono (by omega) (tdiv_mul_ninety_mono hd (by omega) (by omega))

/-- Claim C1 witness: a concrete H-at-100 / L-at-200 bracket realises
the endpoint values. -/
theorem dial_HL_endpoints_witness :
    updateServoPosition ⟨0, 0, 200, 0, 100, 0⟩ 100 = some 0 :=
  (dial_HL_endpoints_and_monotone ⟨0, 0, 200, 0, 100, 0⟩ 100 200 rfl rfl
    (by decide) (by decide)).1

/-- Claim C10: for a selected opposite-kind bracket the written angle
stays inside that segment's half of the dial — `[0, 90]` when the past
anchor is High and the next is Low, `[90, 180]` when the past anchor is
Low and the next is High — for every `now`, even outside the bracket
interval. -/
theorem per_segment_angle_clamp (a : Anchors) (now t0 t1 : Int) :
    (prevSel a = (t0, "H") → nextSel a = (t1, "L") →
      ∀ x, updateServoPosition a now = some x → 0 ≤ x ∧ x ≤ 90) ∧
    (prevSel a = (t0, "L") → nextSel a = (t1, "H") →
      ∀ x, updateServoPosition a now = some x → 90 ≤ x ∧ x ≤ 180) := by
  constructor
  · intro hp hn x hx
    by_cases h0 : t0 = 0
    · rw [updateServoPosition] at hx
      rw [if_pos (by rw [hp]; exact Or.inl h0)] at hx
      exact absurd hx (by simp)
    · rw [updateServo_HL_eq hp hn h0 now] at hx
      have := Option.some.inj hx
      rw [← this]
      exact ⟨constrain_lb (by omega), constrain_ub (by omega)⟩
  · intro hp hn x hx
    by_cases h0 : t0 = 0
    · rw [updateServoPosition] at hx
      rw [if_pos (by rw [hp]; exact Or.inl h0)] at hx
      exact absurd hx (by simp)
    · rw [updateServo_LH_eq hp hn h0 now] at hx
      have := Option.some.inj hx
      rw [← this]
      exact ⟨constrain_lb (by omega), constrain_ub (by omega)⟩

/-- Claim C10 witness: the concrete H-at-100 / L-at-200 bracket at
`now = 150` writes 45, inside `[0, 90]`. -/
theorem per_segment_angle_clamp_witness :
    (0 : Int) ≤ 45 ∧ (45 : Int) ≤ 90 :=
  (per_segment_angle_clamp ⟨0, 0, 200, 0, 100, 0⟩ 150 100 200).1 rfl rfl 45 rfl

/-- Claim C4 counterexample: a schedule knowing only High tides (past
High at 100, next High at 200) has no opposite-kind bracket around
`now = 150`, yet `updateServoPosition` still commands the actuator,
writing the default angle 90. -/
theorem noBracket_still_commands_cex :
    ¬ specHasOppositeBracket ⟨200, 0, 0, 0, 100, 0⟩ 150 ∧
    updateServoPosition ⟨200, 0, 0, 0, 100, 0⟩ 150 = some 90 := by
  decide

/-- Claim C4 amended: the wake cycle skips the actuator exactly when
the code's own selection finds no past anchor or no next anchor (the
selected time is the 0 sentinel); whenever both selections are
non-zero an angle is always written — same-kind pairs get the default
angle 90 and the condition `last < now < next` is never checked. -/
theorem servo_command_iff_selected_anchors (a : Anchors) (now : Int) :
    updateServoPosition a now = none ↔
      (prevSel a).1 = 0 ∨ (nextSel a).1 = 0 := by
  by_cases h : (prevSel a).1 = 0 ∨ (nextSel a).1 = 0 <;>
    simp [updateServoPosition, h]

/-- Claim C5 counterexample (newFinalThree variant): with past High at
100 and stale next Low at 50 the selected bracket has duration
`50 - 100 ≤ 0`, yet `updateServoPosition` executes the division and
writes the clamped angle 0 instead of rejecting the bracket. -/
theorem nonpositive_duration_angle_cex :
    prevSel ⟨0, 0, 50, 0, 100, 0⟩ = (100, "H") ∧
    nextSel ⟨0, 0, 50, 0, 100, 0⟩ = (50, "L") ∧
    (50 : Int) - 100 ≤ 0 ∧
    updateServoPosition ⟨0, 0, 50, 0, 100, 0⟩ 120 = some 0 := by
  decide

/-- Claim C5 amended: in the finalTideThree variant the guard ahead of
the interpolation rejects every selected bracket whose duration
`next - prev` is zero or negative, returning without writing any
angle, so its division never runs with a non-positive divisor; the
newFinalThree variant has no such guard and computes a clamped angle
(see the counterexample). -/
theorem ft3_nonpositive_duration_aborts (nh nl now p n : Int)
    (pt nt : String) (hsel : FT3.ftSelect nh nl now = .bracket p n pt nt)
    (hd : n - p ≤ 0) : FT3.ftUpdateServoPosition nh nl now = none := by
  simp only [FT3.ftUpdateServoPosition, hsel]
  exact if_pos (Or.inr (Or.inr (by omega)))

/-- Claim C5 amended witness: a schedule with only a past High at 50
selects the degenerate bracket (H at 50, L at 0) and the variant
aborts without a servo write. -/
theorem ft3_nonpositive_duration_witness :
    FT3.ftUpdateServoPosition 50 0 60 = none :=
  ft3_nonpositive_duration_aborts 50 0 60 50 0 "H" "L" (by decide) (by decide)

end FancyTide

namespace FancyTide

theorem stepPred_sets_nextHigh {now : Int} {a : Anchors} {p : Pred} {t : Int}
    (ht : p.t = some t) (hfut : ¬ t < now) (hty : p.ty = "H")
    (h0 : a.nextHighTideTime = 0) :
    (stepPred now a p).nextHighTideTime = t := by
  simp only [stepPred, ht]
  rw [if_neg hfut, if_pos ⟨hty, h0⟩]

theorem stepPred_nextHigh_cases (now : Int) (a : Anchors) (p : Pred) :
    (stepPred now a p).nextHighTideTime = a.nextHighTideTime ∨
    (a.nextHighTideTime = 0 ∧ p.t = some ((stepPred now a p).nextHighTideTime) ∧
      p.ty = "H" ∧ now ≤ (stepPred now a p).nextHighTideTime) := by
  rcases hpt : p.t with _ | t
  · left; simp [stepPred, hpt]
  · simp only [stepPred, hpt]
    split_ifs with h1 h2 h3 h4 h5 h6 h7 <;> simp_all

theorem predChron_le {q p : Pred} {tq tp : Int} (h : predChron q p)
    (hq : q.t = some tq) (hp : p.t = some tp) : tq ≤ tp := by
  unfold predChron at h
  rw [hq, hp] at h
  exact h

theorem foldl_nextHigh_frozen (now : Int) (E : List Pred) (a : Anchors)
    (h : a.nextHighTideTime ≠ 0) :
    (E.foldl (stepPred now) a).nextHighTideTime = a.nextHighTideTime := by
  induction E generalizing a with
  | nil => rfl
  | cons p E ih =>
    rcases stepPred_nextHigh_cases now a p with hk | ⟨h0, _⟩
    · rw [List.foldl_cons, ih (stepPred now a p) (by rw [hk]; exact h), hk]
    · exact absurd h0 h

theorem foldl_nextHigh_mem (now : Int) (E : List Pred) (a : Anchors) :
    (E.foldl (stepPred now) a).nextHighTideTime = a.nextHighTideTime ∨
    ∃ p ∈ E, p.t = some ((E.foldl (stepPred now) a).nextHighTideTime) ∧
      p.ty = "H" ∧ now ≤ (E.foldl (stepPred now) a).nextHighTideTime := by
  induction E generalizing a with
  | nil => left; rfl
  | cons q E ih =>
    rw [List.foldl_cons]
    rcases stepPred_nextHigh_cases now a q with hk | ⟨h0, hqt, hqty, hqfut⟩
    · rcases ih (stepPred now a q) with h | ⟨p, hp, h⟩
      · left; rw [h, hk]
      · right; exact ⟨p, List.mem_cons_of_mem q hp, h⟩
    · by_cases hz : (stepPred now a q).nextHighTideTime = 0
      · rcases ih (stepPred now a q) with h | ⟨p, hp, h⟩
        · left; rw [h, hz, h0]
        · right; exact ⟨p, List.mem_cons_of_mem q hp, h⟩
      · have hfr := foldl_nextHigh_frozen now E (stepPred now a q) hz
        right
        exact ⟨q, List.mem_cons_self q E, by rw [hfr]; exact hqt,
               hqty, by rw [hfr]; exact hqfut⟩

theorem foldl_nextHigh_min (now : Int) (hnow : 0 < now) :
    ∀ (E : List Pred), E.Pairwise predChron → ∀ (a : Anchors),
    a.nextHighTideTime = 0 →
    ∀ p ∈ E, p.ty = "H" → ∀ tp, p.t = some tp → now ≤ tp →
      (E.foldl (stepPred now) a).nextHighTideTime ≤ tp := by
  intro E
  induction E with
  | nil => intro _ a _ p hp; exact absurd hp (List.not_mem_nil p)
  | cons q E ih =>
    intro hpair a ha p hp hty tp hpt htp
    have hq := (List.pairwise_cons.mp hpair).1
    have hE := (List.pairwise_cons.mp hpair).2
    rw [List.foldl_cons]
    rcases stepPred_nextHigh_cases now a q with hk | ⟨_, hqt, hqty, hqfut⟩
    · rcases List.mem_cons.mp hp with rfl | hpE
      · have hset := @stepPred_sets_nextHigh now a p tp hpt (by omega) hty ha
        rw [hk, ha] at hset
        omega
      · exact ih hE (stepPred now a q) (by rw [hk]; exact ha) p hpE hty tp hpt htp
    · have hz : (stepPred now a q).nextHighTideTime ≠ 0 := by omega
      have hfr := foldl_nextHigh_frozen now E (stepPred now a q) hz
      rw [hfr]
      rcases List.mem_cons.mp hp with rfl | hpE
      · have := Option.some.inj (hpt ▸ hqt)
        omega
      · exact predChron_le (hq p hpE) hqt hpt

theorem stepPred_lastLow_cases (now : Int) (a : Anchors) (p : Pred) :
    (stepPred now a p).lastLowTideTime = a.lastLowTideTime ∨
    (p.t = some ((stepPred now a p).lastLowTideTime) ∧ p.ty = "L" ∧
      (stepPred now a p).lastLowTideTime < now ∧
      a.lastLowTideTime < (stepPred now a p).lastLowTideTime) := by
  rcases hpt : p.t with _ | t
  · left; simp [stepPred, hpt]
  · simp only [stepPred, hpt]
    split_ifs with h1 h2 h3 h4 h5 h6 h7 <;> simp_all

theorem stepPred_lastLow_ge {now : Int} {a : Anchors} {p : Pred} {t : Int}
    (ht : p.t = some t) (hpast : t < now) (hty : p.ty = "L") :
    t ≤ (stepPred now a p).lastLowTideTime := by
  have hLH : ¬ p.ty = "H" := by rw [hty]; decide
  simp only [stepPred, ht]
  rw [if_pos hpast, if_neg hLH, if_pos hty]
  split_ifs with h
  · simp
  · omega

theorem foldl_lastLow_le (now : Int) (E : List Pred) (a : Anchors) :
    a.lastLowTideTime ≤ (E.foldl (stepPred now) a).lastLowTideTime := by
  induction E generalizing a with
  | nil => exact le_rfl
  | cons q E ih =>
    rw [List.foldl_cons]
    have h := ih (stepPred now a q)
    rcases stepPred_lastLow_cases now a q with hk | ⟨_, _, _, hgt⟩ <;> omega

theorem foldl_lastLow_mem (now : Int) (E : List Pred) (a : Anchors) :
    (E.foldl (stepPred now) a).lastLowTideTime = a.lastLowTideTime ∨
    ∃ p ∈ E, p.t = some ((E.foldl (stepPred now) a).lastLowTideTime) ∧
      p.ty = "L" ∧ (E.foldl (stepPred now) a).lastLowTideTime < now := by
  induction E generalizing a with
  | nil => left; rfl
  | cons q E ih =>
    rw [List.foldl_cons]
    rcases ih (stepPred now a q) with h | ⟨p, hp, h⟩
    · rcases stepPred_lastLow_cases now a q with hk | ⟨hqt, hqty, hqlt, _⟩
      · left; rw [h, hk]
      · right
        exact ⟨q, List.mem_cons_self q E, by rw [h]; exact hqt, hqty,
               by rw [h]; exact hqlt⟩
    · right; exact ⟨p, List.mem_cons_of_mem q hp, h⟩

theorem foldl_lastLow_dom (now : Int) :
    ∀ (E : List Pred) (a : Anchors),
    ∀ p ∈ E, p.ty = "L" → ∀ tp, p.t = some tp → tp < now →
      tp ≤ (E.foldl (stepPred now) a).lastLowTideTime := by
  intro E
  induction E with
  | nil => intro a p hp; exact absurd hp (List.not_mem_nil p)
  | cons q E ih =>
    intro a p hp hty tp hpt htp
    rw [List.foldl_cons]
    rcases List.mem_cons.mp hp with rfl | hpE
    · have h1 := @stepPred_lastLow_ge now a p tp hpt htp hty
      have h2 := foldl_lastLow_le now E (stepPred now a p)
      omega
    · exact ih (stepPred now a q) p hpE hty tp hpt htp

/-- Claim C9: whenever the extractor's lastLow anchor is present
(non-zero), it is the timestamp of a Low record strictly before the
reference time, and no Low record of the input that lies before the
reference time has a larger timestamp (input order does not matter). -/
theorem extractor_lastLow_latest_past (now : Int) (E : List Pred)
    (hp : (extractAnchors now E).lastLowTideTime ≠ 0) :
    (∃ p ∈ E, p.t = some ((extractAnchors now E).lastLowTideTime) ∧
       p.ty = "L" ∧ (extractAnchors now E).lastLowTideTime < now) ∧
    ∀ p ∈ E, p.ty = "L" → ∀ tp, p.t = some tp → tp < now →
      tp ≤ (extractAnchors now E).lastLowTideTime := by
  constructor
  · rcases foldl_lastLow_mem now E ⟨0, 0, 0, 0, 0, 0⟩ with h | h
    · exact absurd h hp
    · exact h
  · exact foldl_lastLow_dom now E ⟨0, 0, 0, 0, 0, 0⟩

/-- Claim C9 witness: with records Low at 10, Low at 30, High at 50 and
Low at 160 and reference time 100, the extracted lastLow is 30 and
dominates the past Low at 10. -/
theorem extractor_lastLow_witness :
    (10 : Int) ≤ (extractAnchors 100
      [⟨some 10, "L", 0⟩, ⟨some 30, "L", 0⟩, ⟨some 50, "H", 0⟩,
       ⟨some 160, "L", 1⟩]).lastLowTideTime :=
  (extractor_lastLow_latest_past 100
      [⟨some 10, "L", 0⟩, ⟨some 30, "L", 0⟩, ⟨some 50, "H", 0⟩,
       ⟨some 160, "L", 1⟩] (by decide)).2
    ⟨some 10, "L", 0⟩ (by decide) rfl 10 rfl (by decide)

/-- Claim C2 counterexample: with reference time 10 and the unordered
record list High at 100 then High at 50, the extractor keeps the first
future High encountered (100), not the minimum future High (50), so
the claimed minimality over arbitrary event lists fails. -/
theorem extractor_nextHigh_not_minimum_cex :
    (extractAnchors 10 [⟨some 100, "H", 0⟩, ⟨some 50, "H", 0⟩]).nextHighTideTime
        = 100 ∧
    (⟨some 50, "H", 0⟩ : Pred) ∈
        [(⟨some 100, "H", 0⟩ : Pred), ⟨some 50, "H", 0⟩] ∧
    (10 : Int) ≤ 50 ∧
    ¬ (extractAnchors 10
        [(⟨some 100, "H", 0⟩ : Pred), ⟨some 50, "H", 0⟩]).nextHighTideTime ≤ 50 := by
  decide

/-- Claim C2 amended: the extractor keeps the first future High in
input order; for a positive reference time and a chronologically
ordered record list (as the feed delivers) the present nextHigh anchor
has kind High, timestamp at or after the reference time, and is the
minimum such timestamp in the list. -/
theorem extractor_nextHigh_sorted_min (now : Int) (E : List Pred)
    (hnow : 0 < now) (hsort : E.Pairwise predChron)
    (hp : (extractAnchors now E).nextHighTideTime ≠ 0) :
    (∃ p ∈ E, p.t = some ((extractAnchors now E).nextHighTideTime) ∧
       p.ty = "H" ∧ now ≤ (extractAnchors now E).nextHighTideTime) ∧
    ∀ p ∈ E, p.ty = "H" → ∀ tp, p.t = some tp → now ≤ tp →
      (extractAnchors now E).nextHighTideTime ≤ tp := by
  constructor
  · rcases foldl_nextHigh_mem now E ⟨0, 0, 0, 0, 0, 0⟩ with h | h
    · exact absurd h hp
    · exact h
  · exact foldl_nextHigh_min now hnow E hsort ⟨0, 0, 0, 0, 0, 0⟩ rfl

/-- Claim C2 amended witness: a sorted list with Low at 40, High at 120
and High at 300 around reference time 100 extracts nextHigh 120, below
the other future High at 300. -/
theorem extractor_nextHigh_sorted_min_witness :
    (extractAnchors 100
      [⟨some 40, "L", 0⟩, ⟨some 120, "H", 1⟩,
       ⟨some 300, "H", 2⟩]).nextHighTideTime ≤ 300 :=
  (extractor_nextHigh_sorted_min 100
      [⟨some 40, "L", 0⟩, ⟨some 120, "H", 1⟩, ⟨some 300, "H", 2⟩]
      (by decide) (by decide) (by decide)).2
    ⟨some 300, "H", 2⟩ (by decide) rfl 300 rfl (by decide)


theorem nextFutureSel_nonpos {nh nl : Int} (h1 : nh ≤ 0) (h2 : nl ≤ 0) :
    nextFutureSel nh nl = 0 := by
  unfold nextFutureSel; split_ifs <;> omega

theorem needsNewData_persist {stationId : String}
    {currentDay lastDlDay nh nl now now2 : Int}
    (h : needsNewData stationId currentDay lastDlDay nh nl now = true)
    (hle : now ≤ now2) :
    needsNewData stationId currentDay lastDlDay nh nl now2 = true := by
  unfold needsNewData at h ⊢
  simp only [Bool.or_eq_true, decide_eq_true_eq] at h ⊢
  rcases h with (h | h) | (h | h)
  · exact Or.inl (Or.inl h)
  · exact Or.inl (Or.inr h)
  · exact Or.inr (Or.inl ⟨h.1, by omega⟩)
  · exact Or.inr (Or.inr h)

/-- Claim C3 counterexample: a refresh whose payload decodes to one
past Low record reports failure (`false`) yet has already overwritten
the persisted schedule, zeroing the `next*` anchors and replacing
`lastLowTideTime`, with `lastRefreshDay` left stale. -/
theorem refresh_failure_partial_overwrite_cex :
    (refreshAttempt "9455920" 20 100 (.payload (some [⟨some 50, "L", 3⟩]))
        ⟨999, 1, 888, 2, 5, 6, 7⟩).1 = false ∧
    (refreshAttempt "9455920" 20 100 (.payload (some [⟨some 50, "L", 3⟩]))
        ⟨999, 1, 888, 2, 5, 6, 7⟩).2 ≠ ⟨999, 1, 888, 2, 5, 6, 7⟩ := by
  decide

/-- Claim C3 amended: fetch failure, decode failure, an empty
predictions array, or an unset station id all retain the persisted
schedule unchanged; but once a non-empty prediction list decodes, all
six anchor fields are persisted unconditionally — `lastRefreshDay` is
added only when the refresh reports success — so a refresh that
decodes data yet reports failure leaves the new anchors persisted
beside the stale `lastRefreshDay`. -/
theorem refresh_persistence_characterization (stationId : String)
    (currentDay now : Int) (f : FetchOutcome) (st : Store) :
    ((f = .httpFail ∨ f = .payload none ∨ f = .payload (some []) ∨
        stationId.length = 0) →
      (refreshAttempt stationId currentDay now f st).2 = st) ∧
    (∀ preds, f = .payload (some preds) → preds ≠ [] →
      stationId.length ≠ 0 →
      (refreshAttempt stationId currentDay now f st).2 =
        if (refreshAttempt stationId currentDay now f st).1
        then { writeAnchors (extractAnchors now preds) st with
                 lastDownloadDay := currentDay }
        else writeAnchors (extractAnchors now preds) st) := by
  constructor
  · rintro (rfl | rfl | rfl | hs)
    · by_cases hs : stationId.length = 0 <;>
        simp [refreshAttempt, getNOAATideData, hs]
    · by_cases hs : stationId.length = 0 <;>
        simp [refreshAttempt, getNOAATideData, hs]
    · by_cases hs : stationId.length = 0 <;>
        simp [refreshAttempt, getNOAATideData, hs]
    · cases f with
      | httpFail => simp [refreshAttempt, getNOAATideData, hs]
      | payload d => cases d <;> simp [refreshAttempt, getNOAATideData, hs]
  · rintro preds rfl hne hs
    simp only [refreshAttempt, getNOAATideData]
    rw [if_neg hs]
    simp only [List.isEmpty_eq_true]
    rw [if_neg hne]

/-- Claim C6 counterexample: with the station configured, the day
marker current, `nextHigh = now = 100` and `nextLow` absent, the
code's decision is `false` (its staleness test is strict `<`) while
the spec's rule — earliest present anchor `<= now` — says refresh. -/
theorem refresh_policy_spec_iff_cex :
    ¬ (needsNewData "9455920" 5 5 100 0 100 = true ↔
       refreshRuleSpec "9455920" 5 5 100 0 100) := by
  decide

/-- Claim C6 amended: for non-negative stored anchors, the code's
`needsNewData` is equivalent to the spec's disjunction with the
staleness condition made strict: the earliest present `next*` anchor
must be strictly before `now` (at `= now` no refresh is attempted). -/
theorem refresh_policy_iff_strict (stationId : String)
    (currentDay lastDlDay nh nl now : Int)
    (hnh : 0 ≤ nh) (hnl : 0 ≤ nl) :
    needsNewData stationId currentDay lastDlDay nh nl now = true ↔
      refreshRuleStrict stationId currentDay lastDlDay nh nl now := by
  have hm : nextFutureSel nh nl = minPresent nh nl := by
    unfold nextFutureSel minPresent
    split_ifs <;> omega
  unfold needsNewData refreshRuleStrict
  rw [hm]
  simp only [Bool.or_eq_true, decide_eq_true_eq]
  have hz : minPresent nh nl = 0 ↔ (nh = 0 ∧ nl = 0) := by
    unfold minPresent; split_ifs <;> omega
  have hge : 0 ≤ minPresent nh nl := by
    unfold minPresent; split_ifs <;> omega
  by_cases hA : currentDay ≠ lastDlDay <;>
    by_cases hB : stationId.length = 0 <;>
      (simp [hA, hB]; all_goals omega)

/-- Claim C6 amended witness: with an empty station id the policy
fires, matching the strict rule at a concrete input. -/
theorem refresh_policy_iff_strict_witness :
    needsNewData "" 5 5 0 0 100 = true ↔
      refreshRuleStrict "" 5 5 0 0 100 :=
  refresh_policy_iff_strict "" 5 5 0 0 100 le_rfl le_rfl

theorem getNOAA_day_unchanged (stationId : String) (now : Int)
    (f : FetchOutcome) (st : Store) :
    (getNOAATideData stationId now f st).2.lastDownloadDay =
      st.lastDownloadDay := by
  unfold getNOAATideData
  split_ifs with hs
  · rfl
  · cases f with
    | httpFail => rfl
    | payload d =>
      cases d with
      | none => rfl
      | some preds =>
        by_cases he : preds.isEmpty = true <;> simp [he, writeAnchors]

theorem getNOAA_fail_cases (stationId : String) (now : Int)
    (f : FetchOutcome) (st : Store)
    (hfail : (getNOAATideData stationId now f st).1 = false) :
    (getNOAATideData stationId now f st).2 = st ∨
    ∃ preds, f = .payload (some preds) ∧
      (getNOAATideData stationId now f st).2 =
        writeAnchors (extractAnchors now preds) st ∧
      (extractAnchors now preds).nextHighTideTime ≤ 0 ∧
      (extractAnchors now preds).nextLowTideTime ≤ 0 := by
  by_cases hs : stationId.length = 0
  · left; simp [getNOAATideData, hs]
  · cases f with
    | httpFail => left; simp [getNOAATideData, hs]
    | payload d =>
      cases d with
      | none => left; simp [getNOAATideData, hs]
      | some preds =>
        by_cases he : preds.isEmpty = true
        · left; simp [getNOAATideData, hs, he]
        · simp [getNOAATideData, hs, he, not_or, not_lt] at hfail
          right
          refine ⟨preds, rfl, ?_, hfail.1, hfail.2⟩
          simp [getNOAATideData, hs, he]

/-- Claim C7: `lastRefreshDay` is persisted only by a successful
refresh: a failing attempt leaves `lastDownloadDay` at its prior
value, and with the day unchanged the refresh policy evaluates to
`true` again at any later reference time, so the next wake retries. -/
theorem lastDownloadDay_only_on_success_retry (stationId : String)
    (currentDay now : Int) (f : FetchOutcome) (st : Store)
    (hneed : needsNewData stationId currentDay st.lastDownloadDay
        st.nextHighTideTime st.nextLowTideTime now = true)
    (hfail : (refreshAttempt stationId currentDay now f st).1 = false) :
    (refreshAttempt stationId currentDay now f st).2.lastDownloadDay =
        st.lastDownloadDay ∧
    ∀ now2, now ≤ now2 →
      needsNewData stationId currentDay
        (refreshAttempt stationId currentDay now f st).2.lastDownloadDay
        (refreshAttempt stationId currentDay now f st).2.nextHighTideTime
        (refreshAttempt stationId currentDay now f st).2.nextLowTideTime
        now2 = true := by
  have hg : (getNOAATideData stationId now f st).1 = false := hfail
  have hra : (refreshAttempt stationId currentDay now f st).2 =
      (getNOAATideData stationId now f st).2 := by
    simp [refreshAttempt, hg]
  rw [hra, getNOAA_day_unchanged]
  refine ⟨rfl, ?_⟩
  intro now2 hle
  rcases getNOAA_fail_cases stationId now f st hg with h | ⟨preds, _, h, hnh, hnl⟩
  · rw [h]
    exact needsNewData_persist hneed hle
  · rw [h]
    unfold needsNewData
    simp only [Bool.or_eq_true, decide_eq_true_eq]
    refine Or.inr (Or.inr ?_)
    simp only [writeAnchors]
    exact nextFutureSel_nonpos hnh hnl

/-- Claim C7 witness: a day-boundary refresh that fails over HTTP
keeps `lastDownloadDay = 5` and leaves the policy true at a later
reference time 200. -/
theorem lastDownloadDay_only_on_success_retry_witness :
    (refreshAttempt "9455920" 6 100 .httpFail
        ⟨9, 9, 9, 9, 9, 9, 5⟩).2.lastDownloadDay = 5 ∧
    needsNewData "9455920" 6
      (refreshAttempt "9455920" 6 100 .httpFail
        ⟨9, 9, 9, 9, 9, 9, 5⟩).2.lastDownloadDay
      (refreshAttempt "9455920" 6 100 .httpFail
        ⟨9, 9, 9, 9, 9, 9, 5⟩).2.nextHighTideTime
      (refreshAttempt "9455920" 6 100 .httpFail
        ⟨9, 9, 9, 9, 9, 9, 5⟩).2.nextLowTideTime 200 = true :=
  ⟨(lastDownloadDay_only_on_success_retry "9455920" 6 100 .httpFail
      ⟨9, 9, 9, 9, 9, 9, 5⟩ (by decide) (by decide)).1,
   (lastDownloadDay_only_on_success_retry "9455920" 6 100 .httpFail
      ⟨9, 9, 9, 9, 9, 9, 5⟩ (by decide) (by decide)).2 200 (by decide)⟩

/-- Claim C8 counterexample: with NTP failed (`ntpSuccess = false`)
and a cached bracket (past High at 10, next Low at 20), the cycle
still interpolates and commands the actuator, writing angle 0. -/
theorem ntp_failure_still_interpolates_cex :
    (wakeCycle false "9455920" 5 0 .httpFail
        ⟨0, 0, 20, 0, 10, 0, 7⟩).servoCmd = some 0 := by
  decide

/-- Claim C8 amended: when time acquisition fails the cycle performs
no refresh (no fetch is attempted and the store is unchanged), but
interpolation still runs on the cached schedule and may command the
actuator; the sleep request is the short 600 s backoff exactly when
the epoch reading is 0, and the regular 1800 s interval otherwise
(600 < 1800). -/
theorem ntp_failure_cycle_behavior (stationId : String)
    (currentDay now : Int) (f : FetchOutcome) (st : Store) :
    (wakeCycle false stationId currentDay now f st).store = st ∧
    (wakeCycle false stationId currentDay now f st).fetchAttempted = false ∧
    (wakeCycle false stationId currentDay now f st).servoCmd =
      updateServoPosition (anchorsOf st) now ∧
    (wakeCycle false stationId currentDay now f st).sleepSeconds =
      (if now = 0 then 600 else 1800) ∧
    (600 : Int) < 1800 :=
  ⟨rfl, rfl, rfl, rfl, by decide⟩
/-- Claim C3 amended witness: an HTTP failure at a concrete populated
store retains the schedule field-for-field. -/
theorem refresh_persistence_witness :
    (refreshAttempt "9455920" 20 100 .httpFail
        ⟨999, 1, 888, 2, 5, 6, 7⟩).2 = ⟨999, 1, 888, 2, 5, 6, 7⟩ :=
  (refresh_persistence_characterization "9455920" 20 100 .httpFail
      ⟨999, 1, 888, 2, 5, 6, 7⟩).1 (Or.inl rfl)

end FancyTide
